import Mathlib

/-!
Verification of the session middleware in `src/index.js` (koa-session-redis).

The development shallowly embeds the source:

* the serializer (`encode` / `decode`, src/index.js lines 256-272) together
  with models of the platform builtins they call (`JSON.stringify`,
  `JSON.parse`, `Buffer` base64 and UTF-8 conversions);
* the `Session` entity (constructor, `toJSON`, `length`, `changed`, `save`,
  lines 164-246);
* the per-request middleware generator (lines 78-153): load phase, the
  accessor/mutator contract, the finalize decision sequence, and the
  capture-and-rethrow of downstream errors.

Strings are modelled as lists of unicode scalar values (`List Char`), byte
strings as lists of `Nat` below 256.  Definitions come first, all theorems
follow.
-/

namespace KoaSession

/-- Strings of the JavaScript program are modelled as lists of unicode
scalar values. -/
abbrev Str := List Char

/-! ### Characters, digits, hexadecimal -/

/-- JSON whitespace characters (as skipped by `JSON.parse`). -/
def isWs (c : Char) : Bool :=
  c == '\x20' || c == '\x0a' || c == '\x09' || c == '\x0d'

/-- Decimal digit test. -/
def isDig (c : Char) : Bool :=
  '0' ≤ c && c ≤ '9'

/-- Numeric value of a decimal digit character. -/
def digVal (c : Char) : Nat :=
  c.toNat - 48

/-- The decimal digit character for a value below ten. -/
def digitChar : Nat → Char
  | 0 => '0' | 1 => '1' | 2 => '2' | 3 => '3' | 4 => '4'
  | 5 => '5' | 6 => '6' | 7 => '7' | 8 => '8' | _ => '9'

/-- Lowercase hexadecimal digit character for a value below sixteen. -/
def hexChar : Nat → Char
  | 0 => '0' | 1 => '1' | 2 => '2' | 3 => '3' | 4 => '4'
  | 5 => '5' | 6 => '6' | 7 => '7' | 8 => '8' | 9 => '9'
  | 10 => 'a' | 11 => 'b' | 12 => 'c' | 13 => 'd' | 14 => 'e' | _ => 'f'

/-- Hexadecimal digit test (as accepted in a JSON `\u` escape). -/
def isHex (c : Char) : Bool :=
  ('0' ≤ c && c ≤ '9') || ('a' ≤ c && c ≤ 'f') || ('A' ≤ c && c ≤ 'F')

/-- Numeric value of a hexadecimal digit character. -/
def hexVal (c : Char) : Nat :=
  if '0' ≤ c && c ≤ '9' then c.toNat - 48
  else if 'a' ≤ c && c ≤ 'f' then c.toNat - 87
  else c.toNat - 55

/-! ### Decimal rendering and parsing of naturals -/

/-- Decimal rendering of a natural number, most significant digit first
(the integer cases of the number formatting done by `JSON.stringify`). -/
def renderNat (n : Nat) : Str :=
  if _ : n < 10 then [digitChar n]
  else renderNat (n / 10) ++ [digitChar (n % 10)]
  decreasing_by exact Nat.div_lt_self (by omega) (by omega)

/-- Scale factor accumulated while rendering `n`: ten to the number of
digits of `n`. -/
def pow10 (n : Nat) : Nat :=
  if _ : n < 10 then 10 else 10 * pow10 (n / 10)
  decreasing_by exact Nat.div_lt_self (by omega) (by omega)

/-- Greedy decimal digit consumption with an accumulator, as a JSON number
parser performs it. -/
def pDigits (acc : Nat) : Str → Nat × Str
  | [] => (acc, [])
  | c :: r => if isDig c then pDigits (acc * 10 + digVal c) r else (acc, c :: r)

/-- A list whose head is not a decimal digit (so a rendered number followed
by it parses back exactly). -/
def noDigHead : Str → Prop
  | [] => True
  | c :: _ => isDig c = false

instance : DecidablePred noDigHead := by
  intro l
  cases l <;> simp [noDigHead] <;> infer_instance

/-! ### JSON values

Session field values are arbitrary JSON-representable data.  Numbers are
modelled as integers (the integral subset of JavaScript numbers). -/

mutual

inductive Json : Type
  | null
  | bool (b : Bool)
  | num (n : Int)
  | str (s : Str)
  | arr (xs : JsonArr)
  | obj (kvs : JsonObj)

inductive JsonArr : Type
  | nil
  | cons (hd : Json) (tl : JsonArr)

inductive JsonObj : Type
  | nil
  | cons (k : Str) (v : Json) (tl : JsonObj)

end

/-- The members of an object node as an ordinary association list. -/
def JsonObj.toList : JsonObj → List (Str × Json)
  | .nil => []
  | .cons k v tl => (k, v) :: tl.toList

/-- An object node from an ordinary association list. -/
def JsonObj.ofList : List (Str × Json) → JsonObj
  | [] => .nil
  | (k, v) :: tl => .cons k v (JsonObj.ofList tl)

/-- The elements of an array node as an ordinary list. -/
def JsonArr.toList : JsonArr → List Json
  | .nil => []
  | .cons v tl => v :: tl.toList

/-! Nesting depth, used as a fuel bound for the parser. -/

mutual

def sizeJ : Json → Nat
  | .arr xs => 1 + sizeA xs
  | .obj kvs => 1 + sizeO kvs
  | .str _s => 1
  | .num _m => 1
  | .bool _b => 1
  | .null => 1

def sizeA : JsonArr → Nat
  | .cons hd tl => 1 + max (sizeJ hd) (sizeA tl)
  | .nil => 1

def sizeO : JsonObj → Nat
  | .cons _k val tl => 1 + max (sizeJ val) (sizeO tl)
  | .nil => 1

end

/-! ### Rendering (model of `JSON.stringify`, as called by `encode`) -/

/-- The rendered text of the `null` keyword. -/
def kwNull : Str := ['n', 'u', 'l', 'l']

/-- The rendered text of the `true` keyword. -/
def kwTrue : Str := ['t', 'r', 'u', 'e']

/-- The rendered text of the `false` keyword. -/
def kwFalse : Str := ['f', 'a', 'l', 's', 'e']

/-- Escape of one character inside a JSON string literal, as
`JSON.stringify` produces it: quote, backslash, the five short control
escapes, `\u00xx` for the remaining control characters, everything else
verbatim. -/
def escChar (c : Char) : Str :=
  if c = '"' then ['\\', '"']
  else if c = '\\' then ['\\', '\\']
  else if c = '\x08' then ['\\', 'b']
  else if c = '\t' then ['\\', 't']
  else if c = '\n' then ['\\', 'n']
  else if c = '\x0c' then ['\\', 'f']
  else if c = '\r' then ['\\', 'r']
  else if c.toNat < 32 then
    ['\\', 'u', '0', '0', hexChar (c.toNat / 16), hexChar (c.toNat % 16)]
  else [c]

/-- Escape a whole string body. -/
def escapeStr (s : Str) : Str := s.flatMap escChar

/-- Decimal rendering of an integer. -/
def renderInt (n : Int) : Str :=
  if n < 0 then '-' :: renderNat n.natAbs else renderNat n.toNat

mutual

/-- Compact JSON text of a value, exactly as `JSON.stringify` lays it out
(no whitespace, fields in insertion order). -/
def renderJ : Json → Str
  | .null => kwNull
  | .bool true => kwTrue
  | .bool false => kwFalse
  | .num n => renderInt n
  | .str s => '"' :: escapeStr s ++ ['"']
  | .arr .nil => ['[', ']']
  | .arr (.cons v tl) => '[' :: renderJ v ++ renderATail tl
  | .obj .nil => ['\x7b', '\x7d']
  | .obj (.cons k v tl) =>
      '\x7b' :: '"' :: escapeStr k ++ '"' :: ':' :: renderJ v ++ renderOTail tl

/-- Remaining elements of a non-empty array, each preceded by a comma,
closed by the bracket. -/
def renderATail : JsonArr → Str
  | .nil => [']']
  | .cons v tl => ',' :: renderJ v ++ renderATail tl

/-- Remaining members of a non-empty object. -/
def renderOTail : JsonObj → Str
  | .nil => ['\x7d']
  | .cons k v tl =>
      ',' :: '"' :: escapeStr k ++ '"' :: ':' :: renderJ v ++ renderOTail tl

end

/-! ### Parsing (model of `JSON.parse`, as called by `decode`) -/

/-- Skip JSON whitespace. -/
def skipWs : Str → Str
  | [] => []
  | c :: r => if isWs c then skipWs r else c :: r

/-- Single-character escapes accepted by `JSON.parse`. -/
def unescChar (e : Char) : Option Char :=
  if e = '"' then some '"'
  else if e = '\\' then some '\\'
  else if e = '/' then some '/'
  else if e = 'b' then some '\x08'
  else if e = 'f' then some '\x0c'
  else if e = 'n' then some '\n'
  else if e = 'r' then some '\r'
  else if e = 't' then some '\t'
  else none

/-- Parse the body of a JSON string literal after the opening quote,
handling the backslash escapes `JSON.parse` accepts; returns the decoded
body and the input after the closing quote. -/
def pString : Str → Option (Str × Str)
  | [] => none
  | c :: r =>
    if c = '"' then some ([], r)
    else if c = '\\' then
      match r with
      | [] => none
      | e :: r2 =>
        if e = 'u' then
          match r2 with
          | h1 :: h2 :: h3 :: h4 :: r3 =>
            if isHex h1 && isHex h2 && isHex h3 && isHex h4 then
              match pString r3 with
              | some (s, r4) =>
                  some (Char.ofNat
                    (((hexVal h1 * 16 + hexVal h2) * 16 + hexVal h3) * 16
                      + hexVal h4) :: s, r4)
              | none => none
            else none
          | _ => none
        else
          match unescChar e with
          | some c2 =>
            match pString r2 with
            | some (s, r3) => some (c2 :: s, r3)
            | none => none
          | none => none
    else
      match pString r with
      | some (s, r2) => some (c :: s, r2)
      | none => none

mutual

/-- Parse one JSON value (fueled recursive descent). -/
def pVal : Nat → Str → Option (Json × Str)
  | 0, _ => none
  | fuel + 1, cs =>
    match skipWs cs with
    | [] => none
    | c :: r =>
      if c = 'n' then
        match r with
        | 'u' :: 'l' :: 'l' :: r2 => some (.null, r2)
        | _ => none
      else if c = 't' then
        match r with
        | 'r' :: 'u' :: 'e' :: r2 => some (.bool true, r2)
        | _ => none
      else if c = 'f' then
        match r with
        | 'a' :: 'l' :: 's' :: 'e' :: r2 => some (.bool false, r2)
        | _ => none
      else if c = '"' then
        match pString r with
        | some (s, r2) => some (.str s, r2)
        | none => none
      else if c = '[' then
        match skipWs r with
        | [] => none
        | c1 :: r1 =>
          if c1 = ']' then some (.arr .nil, r1)
          else
            match pVal fuel (c1 :: r1) with
            | some (v, r2) =>
              match pArrTail fuel r2 with
              | some (tl, r3) => some (.arr (.cons v tl), r3)
              | none => none
            | none => none
      else if c = '\x7b' then
        match skipWs r with
        | [] => none
        | c1 :: r1 =>
          if c1 = '\x7d' then some (.obj .nil, r1)
          else if c1 = '"' then
            match pString r1 with
            | some (k, r2) =>
              match skipWs r2 with
              | [] => none
              | c2 :: r3 =>
                if c2 = ':' then
                  match pVal fuel r3 with
                  | some (v, r4) =>
                    match pObjTail fuel r4 with
                    | some (tl, r5) => some (.obj (.cons k v tl), r5)
                    | none => none
                  | none => none
                else none
            | none => none
          else none
      else if c = '-' then
        match r with
        | c2 :: r2 =>
          if isDig c2 then
            let p := pDigits (digVal c2) r2
            some (.num (-(p.1 : Int)), p.2)
          else none
        | [] => none
      else if isDig c then
        let p := pDigits (digVal c) r
        some (.num (p.1 : Int), p.2)
      else none

/-- Parse the rest of an array after one element: a closing bracket or a
comma followed by the next element. -/
def pArrTail : Nat → Str → Option (JsonArr × Str)
  | 0, _ => none
  | fuel + 1, cs =>
    match skipWs cs with
    | [] => none
    | c :: r =>
      if c = ']' then some (.nil, r)
      else if c = ',' then
        match pVal fuel r with
        | some (v, r2) =>
          match pArrTail fuel r2 with
          | some (tl, r3) => some (.cons v tl, r3)
          | none => none
        | none => none
      else none

/-- Parse the rest of an object after one member. -/
def pObjTail : Nat → Str → Option (JsonObj × Str)
  | 0, _ => none
  | fuel + 1, cs =>
    match skipWs cs with
    | [] => none
    | c :: r =>
      if c = '\x7d' then some (.nil, r)
      else if c = ',' then
        match skipWs r with
        | [] => none
        | c1 :: r1 =>
          if c1 = '"' then
            match pString r1 with
            | some (k, r2) =>
              match skipWs r2 with
              | [] => none
              | c2 :: r3 =>
                if c2 = ':' then
                  match pVal fuel r3 with
                  | some (v, r4) =>
                    match pObjTail fuel r4 with
                    | some (tl, r5) => some (.cons k v tl, r5)
                    | none => none
                  | none => none
                else none
            | none => none
          else none
      else none

end

/-- Parse a complete JSON document: one value, then only whitespace. -/
def jsonParse (cs : Str) : Option Json :=
  match pVal (cs.length + 1) cs with
  | some (v, r) => if (skipWs r).isEmpty then some v else none
  | none => none

/-! ### Base64

Model of `new Buffer(body).toString('base64')` and
`new Buffer(string, 'base64')`: standard alphabet with padding on encode;
on decode every character outside the alphabet (padding included) is
ignored, and a trailing group shorter than four characters contributes its
complete bytes, as Node's decoder behaves. -/

/-- The base64 alphabet. -/
def b64tab (n : Nat) : Char :=
  "ABCDEFGHIJKLMNOPQRSTUVWXYZabcdefghijklmnopqrstuvwxyz0123456789+/".toList.getD n 'A'

/-- Base64 encoding of a byte string, three bytes to four characters, with
`=` padding. -/
def b64encode : List Nat → Str
  | [] => []
  | [a] => [b64tab (a / 4), b64tab (a % 4 * 16), '=', '=']
  | [a, b] => [b64tab (a / 4), b64tab (a % 4 * 16 + b / 16), b64tab (b % 16 * 4), '=']
  | a :: b :: c :: r =>
      b64tab (a / 4) :: b64tab (a % 4 * 16 + b / 16) ::
        b64tab (b % 16 * 4 + c / 64) :: b64tab (c % 64) :: b64encode r

/-- Value of one base64 character; `none` for characters outside the
alphabet. -/
def b64inv (c : Char) : Option Nat :=
  if 'A' ≤ c && c ≤ 'Z' then some (c.toNat - 65)
  else if 'a' ≤ c && c ≤ 'z' then some (c.toNat - 71)
  else if '0' ≤ c && c ≤ '9' then some (c.toNat + 4)
  else if c = '+' then some 62
  else if c = '/' then some 63
  else none

/-- Reassemble bytes from a list of six-bit values, four values to three
bytes; a trailing pair or triple yields one or two bytes, a lone trailing
value is dropped. -/
def b64groups : List Nat → List Nat
  | a :: b :: c :: d :: r =>
      (a * 4 + b / 16) :: (b % 16 * 16 + c / 4) :: (c % 4 * 64 + d) :: b64groups r
  | [a, b, c] => [a * 4 + b / 16, b % 16 * 16 + c / 4]
  | [a, b] => [a * 4 + b / 16]
  | _ => []

/-- Base64 decoding of a string to a byte string. -/
def b64decode (s : Str) : List Nat := b64groups (s.filterMap b64inv)

/-! ### UTF-8

Model of the UTF-8 conversions performed by `new Buffer(body)` and
`Buffer.prototype.toString('utf8')`.  The decoder returns `none` on a
malformed byte sequence (Node substitutes replacement characters there,
which then fail JSON parsing just the same). -/

/-- UTF-8 bytes of one unicode scalar value. -/
def utf8Char (n : Nat) : List Nat :=
  if n < 0x80 then [n]
  else if n < 0x800 then [0xC0 + n / 64, 0x80 + n % 64]
  else if n < 0x10000 then [0xE0 + n / 4096, 0x80 + n / 64 % 64, 0x80 + n % 64]
  else [0xF0 + n / 262144, 0x80 + n / 4096 % 64, 0x80 + n / 64 % 64, 0x80 + n % 64]

/-- UTF-8 encoding of a string. -/
def utf8Encode (s : Str) : List Nat := s.flatMap (fun c => utf8Char c.toNat)

/-- Continuation byte test. -/
def isCont (b : Nat) : Bool := 0x80 ≤ b && b < 0xC0

mutual

/-- UTF-8 decoding of a byte string: dispatch on the lead byte, then
accumulate the scalar value over the continuation bytes. -/
def utf8Decode : List Nat → Option Str
  | [] => some []
  | b :: r =>
    if b < 0x80 then (utf8Decode r).map (fun s => Char.ofNat b :: s)
    else if b < 0xC0 then none
    else if b < 0xE0 then utf8Tail1 (b - 0xC0) r
    else if b < 0xF0 then utf8Tail2 (b - 0xE0) r
    else if b < 0xF8 then utf8Tail3 (b - 0xF0) r
    else none

/-- Last continuation byte of a multi-byte sequence. -/
def utf8Tail1 (acc : Nat) : List Nat → Option Str
  | b :: r =>
      if isCont b then
        (utf8Decode r).map (fun s => Char.ofNat (acc * 64 + (b - 0x80)) :: s)
      else none
  | [] => none

/-- Second-to-last continuation byte. -/
def utf8Tail2 (acc : Nat) : List Nat → Option Str
  | b :: r => if isCont b then utf8Tail1 (acc * 64 + (b - 0x80)) r else none
  | [] => none

/-- Third-to-last continuation byte. -/
def utf8Tail3 (acc : Nat) : List Nat → Option Str
  | b :: r => if isCont b then utf8Tail2 (acc * 64 + (b - 0x80)) r else none
  | [] => none

end

/-! ### The serializer of the source -/

/-- Error classification of an exception thrown while decoding, as the
catch at src/index.js line 109 distinguishes it: a `SyntaxError` from
`JSON.parse` (a malformed record), or anything else. -/
inductive DecodeErr
  | malformed
  | fatal
deriving DecidableEq

/-- Model of `encode` (src/index.js lines 269-272): `JSON.stringify` the
body, then base64-encode its UTF-8 bytes. -/
def encode (body : Json) : Str :=
  b64encode (utf8Encode (renderJ body))

/-- Model of `decode` (src/index.js lines 256-259): base64-decode the
string to bytes, read them as UTF-8 text, and `JSON.parse` that text; a
failure of either step surfaces as the `SyntaxError` that `JSON.parse`
throws on garbage input. -/
def decode (string : Str) : Except DecodeErr Json :=
  match utf8Decode (b64decode string) with
  | none => .error .malformed
  | some body =>
    match jsonParse body with
    | some v => .ok v
    | none => .error .malformed

/-! ### The Session entity (src/index.js lines 164-246) -/

/-- The `Session` entity.  JavaScript keeps the user fields, the transient
`isNew` flag and the `_ctx` / `_json` bookkeeping as properties of one
object; the model keeps the user-visible property bag in `fields` and the
transient attributes besides it.  `toJSON` still applies the source's
name-based filter to the bag, so user fields named `isNew` or beginning
with an underscore are treated exactly as the source treats them. -/
structure Session where
  fields : List (Str × Json)
  isNew : Bool
  jsonCache : Option Str

/-- JavaScript truthiness of a decoded JSON value (the `if (!obj)` test of
the constructor, line 166). -/
def jsTruthy : Json → Bool
  | .null => false
  | .bool b => b
  | .num n => decide (n ≠ 0)
  | .str s => !s.isEmpty
  | .arr _ => true
  | .obj _ => true

/-- Enumerable own properties that `for (var k in obj) this[k] = obj[k]`
(line 167) copies from a JSON value: object members; for an array its
index/element pairs; for a string its index/character pairs; none for
other primitives. -/
def forInFields : Json → List (Str × Json)
  | .obj kvs => kvs.toList
  | .arr xs => xs.toList.enum.map (fun p => (renderNat p.1, p.2))
  | .str s => s.enum.map (fun p => (renderNat p.1, Json.str [p.2]))
  | _ => []

/-- Construction `new Session(this)` with no object argument: empty bag,
`isNew` set (line 166). -/
def Session.freshNew : Session := ⟨[], true, none⟩

/-- Construction `new Session(this, obj)`: for truthy `obj` the for-in
loop copies its enumerable properties and `isNew` stays unset; a falsy
`obj` sets `isNew` on an empty bag. -/
def Session.ofVal (v : Json) : Session :=
  if jsTruthy v then ⟨forInFields v, false, none⟩ else Session.freshNew

/-- Model of `Session.prototype.toJSON` (lines 177-189): every own
enumerable key except `isNew` and keys whose first character is an
underscore. -/
def Session.toJSON (s : Session) : List (Str × Json) :=
  s.fields.filter (fun kv => !(kv.1 == "isNew".toList) && !(kv.1.head? == some '_'))

/-- Model of the `length` getter (lines 214-216). -/
def Session.length (s : Session) : Nat :=
  s.toJSON.length

/-- Model of the `populated` getter (lines 225-227). -/
def Session.populated (s : Session) : Bool :=
  !(s.length == 0)

/-- The canonical encoding of the entity: `encode(this)` runs
`JSON.stringify(this)`, which consults `toJSON`, so the serialized text is
that of the filtered property bag. -/
def Session.encodeSelf (s : Session) : Str :=
  encode (Json.obj (JsonObj.ofList s.toJSON))

/-- Model of `Session.prototype.changed(prev)` (lines 200-204): truthy
`prev` compares a freshly computed encoding (cached into `_json` as a side
effect) with `prev`; falsy `prev` reports `true` at once.  The result pair
carries the entity after the call, since the call may write the cache. -/
def Session.changed (s : Session) (prev : Option Str) : Bool × Session :=
  if (prev.getD []).isEmpty then (true, s)
  else
    let j := s.encodeSelf
    (decide (j ≠ prev.getD []), { s with jsonCache := some j })

/-! ### The middleware (src/index.js lines 78-153) -/

/-- Observable external actions of one request, in program order: cookie
writes (`this.cookies.set`) and store writes (`client.set` / `client.del`).
The load-phase `client.get` is modelled by the `storeGet` input below. -/
inductive Effect
  | cookieSet (name value : Str)
  | storeDel (sid : Str)
  | storeSet (sid value : Str)
deriving DecidableEq

/-- Model of `Session.prototype.save()` (lines 236-246): take the cached
encoding when present (else recompute it), set the session cookie to the
session identifier, and return the encoding. -/
def Session.save (s : Session) (key sid : Str) : Str × Effect :=
  (s.jsonCache.getD s.encodeSelf, .cookieSet key sid)

/-- The `sess` variable that the injected getter/setter close over
(lines 118-129): a `Session` object, or `false` after `this.session =
null`.  The load phase always assigns `sess`, so the `undefined` test of
line 137 cannot fire; the state is still represented so that the finalize
dispatch mirrors the source. -/
inductive SessVar
  | undef
  | unset
  | active (s : Session)

/-- Values handler code can assign to `this.session`, by JavaScript type:
`null`, something of type `object` (a property bag), or anything else. -/
inductive SetVal
  | toNull
  | toObj (kvs : List (Str × Json))
  | toOther

/-- Model of the session setter (lines 125-129): `null` marks the unset
sentinel, an object builds a fresh entity from its own fields, anything
else throws. -/
def setSession : SetVal → Except Unit SessVar
  | .toNull => .ok .unset
  | .toObj kvs => .ok (.active ⟨kvs, false, none⟩)
  | .toOther => .error ()

/-- JavaScript truthiness of the nullable strings the middleware tests
(`if (sid)`, `if (json)`, `if (!prev)`): absent or empty is falsy. -/
def truthyS (o : Option Str) : Bool :=
  !(o.getD []).isEmpty

/-- Lines 98-111: the entity obtained from the decode attempt on a loaded
record string.  A `SyntaxError` (malformed record) falls back to a fresh
session for backward compatibility; any other error is rethrown. -/
def sessionOfDecoded : Except DecodeErr Json → Except DecodeErr Session
  | .ok v => .ok (Session.ofVal v)
  | .error .malformed => .ok Session.freshNew
  | .error .fatal => .error .fatal

/-- State at the end of the load phase: the resolved identifier (the
`sid` variable, equal to `this.sessionId`), the `json` variable as it
remains for the finalize comparison, and the constructed entity. -/
structure LoadResult where
  sid : Str
  json : Option Str
  sess : Session

/-- Lines 86-96: the `json` variable after the guarded store load — absent
when the cookie identifier is falsy, and the store reply (with any failure
degraded to absence) otherwise. -/
def loadJson (cookieSid : Option Str) (storeGet : Except Unit (Option Str)) : Option Str :=
  if truthyS cookieSid then
    match storeGet with
    | .ok v => v
    | .error _ => none
  else none

/-- The load phase (lines 86-116): when a truthy record string was loaded,
keep the cookie identifier and decode the record (malformed falls back to
a fresh session, any other decode error is thrown); otherwise generate a
fresh identifier and a fresh session. -/
def loadPhase (cookieSid : Option Str) (storeGet : Except Unit (Option Str))
    (freshSid : Str) : Except DecodeErr LoadResult :=
  if truthyS (loadJson cookieSid storeGet) then
    match sessionOfDecoded (decode ((loadJson cookieSid storeGet).getD [])) with
    | .ok sess => .ok ⟨cookieSid.getD [], loadJson cookieSid storeGet, sess⟩
    | .error e => .error e
  else .ok ⟨freshSid, loadJson cookieSid storeGet, Session.freshNew⟩

/-- The finalize decision sequence (lines 137-149): session variable never
assigned does nothing (dead branch, see `SessVar`); the unset sentinel
clears the cookie then deletes the record; a new-and-unpopulated session
does nothing; otherwise the change check runs and a changed session saves
(cookie write inside `save()`, then the store write); an unchanged one
does nothing. -/
def finalize (key : Str) (lr : LoadResult) (sv : SessVar) : List Effect :=
  match sv with
  | .undef => []
  | .unset => [.cookieSet key [], .storeDel lr.sid]
  | .active s =>
    if !truthyS lr.json && s.length == 0 then []
    else
      let c := s.changed lr.json
      if c.1 then
        let sr := c.2.save key lr.sid
        [sr.2, .storeSet lr.sid sr.1]
      else []

/-- The per-request middleware generator (lines 78-153) as a function of
the request inputs: the session-id cookie value, the store's reply to
`client.get` (`.error` when the call fails), the identifier `uid(24)`
would produce, and the downstream handler, given by its net effect on the
session variable together with the error it throws (if any; thrown values
are modelled as truthy, as the `if (err)` rethrow tests).  The result is
the effect list plus the error re-thrown at line 152; a fatal decode error
thrown from the load phase aborts before the handler runs (the `.error`
case). -/
def middleware {ε : Type} (key : Str) (cookieSid : Option Str)
    (storeGet : Except Unit (Option Str)) (freshSid : Str)
    (handler : SessVar → SessVar × Option ε) :
    Except DecodeErr (List Effect × Option ε) :=
  match loadPhase cookieSid storeGet freshSid with
  | .ok lr =>
    let h := handler (.active lr.sess)
    .ok (finalize key lr h.1, h.2)
  | .error e => .error e

/-- Whether an effect only ever names the given cookie key and session
identifier: store operations are keyed by `sid`, and a cookie write targets
`key` with either the identifier (a save) or the empty value (a clear). -/
def effUses (key sid : Str) : Effect → Bool
  | .cookieSet n v => n == key && (v == sid || v == [])
  | .storeDel s => s == sid
  | .storeSet s _ => s == sid

/-! ## Theorems -/

/-! ### Digits -/

theorem digVal_digitChar : ∀ n < 10, digVal (digitChar n) = n := by decide

theorem isDig_digitChar : ∀ n < 10, isDig (digitChar n) = true := by decide

theorem isWs_digitChar : ∀ n < 10, isWs (digitChar n) = false := by decide

theorem hexVal_hexChar : ∀ n < 16, hexVal (hexChar n) = n := by decide

theorem isHex_hexChar : ∀ n < 16, isHex (hexChar n) = true := by decide

theorem renderNat_head (n : Nat) :
    ∃ c t, renderNat n = c :: t ∧ isDig c = true := by
  induction n using Nat.strong_induction_on with
  | _ n ih =>
    rw [renderNat]
    by_cases h : n < 10
    · exact ⟨digitChar n, [], by simp [h], isDig_digitChar n h⟩
    · simp only [h, dite_false]
      obtain ⟨c, t, hct, hd⟩ := ih (n / 10) (Nat.div_lt_self (by omega) (by omega))
      exact ⟨c, t ++ [digitChar (n % 10)], by rw [hct]; simp, hd⟩

theorem pDigits_renderNat (n : Nat) :
    ∀ acc r, pDigits acc (renderNat n ++ r) = pDigits (acc * pow10 n + n) r := by
  induction n using Nat.strong_induction_on with
  | _ n ih =>
    intro acc r
    rw [renderNat, pow10]
    by_cases h : n < 10
    · simp only [h, dite_true, List.cons_append, List.nil_append,
        pDigits, isDig_digitChar n h, if_true, digVal_digitChar n h]
    · simp only [h, dite_false, List.append_assoc, List.cons_append, List.nil_append]
      rw [ih (n / 10) (Nat.div_lt_self (by omega) (by omega))]
      have h10 : isDig (digitChar (n % 10)) = true :=
        isDig_digitChar _ (Nat.mod_lt _ (by omega))
      simp only [pDigits, h10, if_true, digVal_digitChar _ (Nat.mod_lt _ (by omega))]
      have : (acc * (10 * pow10 (n / 10)) + n) =
          ((acc * pow10 (n / 10) + n / 10) * 10 + n % 10) := by
        have := Nat.div_add_mod n 10
        ring_nf
        omega
      rw [this]

theorem pDigits_stop (acc : Nat) (r : Str) (h : noDigHead r) :
    pDigits acc r = (acc, r) := by
  cases r with
  | nil => rfl
  | cons c t => simp only [pDigits, noDigHead] at h ⊢; simp [h]

theorem pDigits_renderNat_stop (n : Nat) (r : Str) (h : noDigHead r) :
    pDigits 0 (renderNat n ++ r) = (n, r) := by
  rw [pDigits_renderNat, Nat.zero_mul, Nat.zero_add, pDigits_stop _ _ h]

/-! ### Base64 -/

theorem b64inv_b64tab : ∀ n < 64, b64inv (b64tab n) = some n := by decide

theorem b64inv_pad : b64inv '=' = none := by decide

theorem b64decode_encode :
    ∀ bs : List Nat, (∀ x ∈ bs, x < 256) → b64decode (b64encode bs) = bs
  | [], _ => rfl
  | [a], h => by
      have ha : a < 256 := h a (by simp)
      simp only [b64encode, b64decode, List.filterMap_cons, List.filterMap_nil,
        b64inv_b64tab (a / 4) (by omega), b64inv_b64tab (a % 4 * 16) (by omega),
        b64inv_pad, b64groups]
      simp only [List.cons.injEq, and_true]
      omega
  | [a, b], h => by
      have ha : a < 256 := h a (by simp)
      have hb : b < 256 := h b (by simp)
      simp only [b64encode, b64decode, List.filterMap_cons, List.filterMap_nil,
        b64inv_b64tab (a / 4) (by omega),
        b64inv_b64tab (a % 4 * 16 + b / 16) (by omega),
        b64inv_b64tab (b % 16 * 4) (by omega), b64inv_pad, b64groups]
      simp only [List.cons.injEq, and_true]
      omega
  | a :: b :: c :: r, h => by
      have ha : a < 256 := h a (by simp)
      have hb : b < 256 := h b (by simp)
      have hc : c < 256 := h c (by simp)
      have ih := b64decode_encode r (fun x hx => h x (by simp [hx]))
      simp only [b64encode, b64decode, List.filterMap_cons,
        b64inv_b64tab (a / 4) (by omega),
        b64inv_b64tab (a % 4 * 16 + b / 16) (by omega),
        b64inv_b64tab (b % 16 * 4 + c / 64) (by omega),
        b64inv_b64tab (c % 64) (by omega), b64groups] at ih ⊢
      simp only [List.cons.injEq]
      exact ⟨by omega, by omega, by omega, ih⟩

/-! ### UTF-8 -/

theorem Char.toNat_lt_model (c : Char) : c.toNat < 0x110000 := by
  rcases c.valid with h | h
  · exact Nat.lt_trans h (by norm_num)
  · exact h.2

theorem utf8Char_bytes_lt (n : Nat) (h : n < 0x110000) :
    ∀ x ∈ utf8Char n, x < 256 := by
  intro x hx
  unfold utf8Char at hx
  split at hx
  · simp at hx; omega
  · split at hx
    · simp at hx; omega
    · split at hx
      · simp at hx; omega
      · simp at hx; omega

theorem isCont_mk (n : Nat) (h : n < 64) : isCont (0x80 + n) = true := by
  simp only [isCont, Bool.and_eq_true, decide_eq_true_eq]
  omega

theorem utf8Decode_cons (b : Nat) (r : List Nat) :
    utf8Decode (b :: r) =
      if b < 0x80 then (utf8Decode r).map (fun s => Char.ofNat b :: s)
      else if b < 0xC0 then none
      else if b < 0xE0 then utf8Tail1 (b - 0xC0) r
      else if b < 0xF0 then utf8Tail2 (b - 0xE0) r
      else if b < 0xF8 then utf8Tail3 (b - 0xF0) r
      else none := by
  rw [utf8Decode.eq_def]

theorem utf8Tail1_cons (acc b : Nat) (r : List Nat) :
    utf8Tail1 acc (b :: r) =
      if isCont b then
        (utf8Decode r).map (fun s => Char.ofNat (acc * 64 + (b - 0x80)) :: s)
      else none := by
  rw [utf8Tail1.eq_def]

theorem utf8Tail2_cons (acc b : Nat) (r : List Nat) :
    utf8Tail2 acc (b :: r) =
      if isCont b then utf8Tail1 (acc * 64 + (b - 0x80)) r else none := by
  rw [utf8Tail2.eq_def]

theorem utf8Tail3_cons (acc b : Nat) (r : List Nat) :
    utf8Tail3 acc (b :: r) =
      if isCont b then utf8Tail2 (acc * 64 + (b - 0x80)) r else none := by
  rw [utf8Tail3.eq_def]

theorem utf8Decode_char (c : Char) (r : List Nat) :
    utf8Decode (utf8Char c.toNat ++ r) = (utf8Decode r).map (fun s => c :: s) := by
  have hlt : c.toNat < 0x110000 := Char.toNat_lt_model c
  have hofn : Char.ofNat c.toNat = c := Char.ofNat_toNat c
  unfold utf8Char
  by_cases h1 : c.toNat < 0x80
  · simp only [h1, if_true, List.cons_append, List.nil_append]
    rw [utf8Decode_cons, if_pos h1, hofn]
  · by_cases h2 : c.toNat < 0x800
    · simp only [h1, h2, if_false, if_true, List.cons_append, List.nil_append]
      rw [utf8Decode_cons]
      rw [if_neg (show ¬(0xC0 + c.toNat / 64 < 0x80) by omega)]
      rw [if_neg (show ¬(0xC0 + c.toNat / 64 < 0xC0) by omega)]
      rw [if_pos (show 0xC0 + c.toNat / 64 < 0xE0 by omega)]
      rw [utf8Tail1_cons, isCont_mk _ (by omega)]
      simp only [if_true]
      have : (0xC0 + c.toNat / 64 - 0xC0) * 64 + (0x80 + c.toNat % 64 - 0x80) = c.toNat := by
        omega
      rw [this, hofn]
    · by_cases h3 : c.toNat < 0x10000
      · simp only [h1, h2, h3, if_false, if_true, List.cons_append, List.nil_append]
        rw [utf8Decode_cons]
        rw [if_neg (show ¬(0xE0 + c.toNat / 4096 < 0x80) by omega)]
        rw [if_neg (show ¬(0xE0 + c.toNat / 4096 < 0xC0) by omega)]
        rw [if_neg (show ¬(0xE0 + c.toNat / 4096 < 0xE0) by omega)]
        rw [if_pos (show 0xE0 + c.toNat / 4096 < 0xF0 by omega)]
        rw [utf8Tail2_cons, isCont_mk _ (by omega)]
        simp only [if_true]
        rw [utf8Tail1_cons, isCont_mk _ (by omega)]
        simp only [if_true]
        have : ((0xE0 + c.toNat / 4096 - 0xE0) * 64 + (0x80 + c.toNat / 64 % 64 - 0x80)) * 64
            + (0x80 + c.toNat % 64 - 0x80) = c.toNat := by
          omega
        rw [this, hofn]
      · simp only [h1, h2, h3, if_false, List.cons_append, List.nil_append]
        rw [utf8Decode_cons]
        rw [if_neg (show ¬(0xF0 + c.toNat / 262144 < 0x80) by omega)]
        rw [if_neg (show ¬(0xF0 + c.toNat / 262144 < 0xC0) by omega)]
        rw [if_neg (show ¬(0xF0 + c.toNat / 262144 < 0xE0) by omega)]
        rw [if_neg (show ¬(0xF0 + c.toNat / 262144 < 0xF0) by omega)]
        rw [if_pos (show 0xF0 + c.toNat / 262144 < 0xF8 by omega)]
        rw [utf8Tail3_cons, isCont_mk _ (by omega)]
        simp only [if_true]
        rw [utf8Tail2_cons, isCont_mk _ (by omega)]
        simp only [if_true]
        rw [utf8Tail1_cons, isCont_mk _ (by omega)]
        simp only [if_true]
        have : (((0xF0 + c.toNat / 262144 - 0xF0) * 64 + (0x80 + c.toNat / 4096 % 64 - 0x80))
              * 64 + (0x80 + c.toNat / 64 % 64 - 0x80)) * 64
            + (0x80 + c.toNat % 64 - 0x80) = c.toNat := by
          omega
        rw [this, hofn]

theorem utf8Decode_encode (s : Str) : utf8Decode (utf8Encode s) = some s := by
  induction s with
  | nil => rfl
  | cons c t ih =>
      show utf8Decode (utf8Char c.toNat ++ utf8Encode t) = _
      rw [utf8Decode_char, ih]
      rfl

theorem utf8Encode_bytes_lt (s : Str) : ∀ x ∈ utf8Encode s, x < 256 := by
  intro x hx
  unfold utf8Encode at hx
  rw [List.mem_flatMap] at hx
  obtain ⟨c, _, hc⟩ := hx
  exact utf8Char_bytes_lt c.toNat (Char.toNat_lt_model c) x hc

/-! ### Character classes -/

theorem ne_of_isDig {c : Char} (h : isDig c = true) (d : Char) (hd : isDig d = false) :
    c ≠ d := by
  intro he
  subst he
  simp [h] at hd

theorem isWs_eq_false_of_isDig {c : Char} (h : isDig c = true) : isWs c = false := by
  cases hc : isWs c
  · rfl
  · exfalso
    simp only [isWs, Bool.or_eq_true, beq_iff_eq] at hc
    rcases hc with ((h1 | h1) | h1) | h1 <;> subst h1 <;> exact absurd h (by decide)

theorem skipWs_cons_nws {c : Char} (h : isWs c = false) (r : Str) :
    skipWs (c :: r) = c :: r := by
  simp [skipWs, h]

/-! ### String escaping round-trip -/

theorem pString_escape : ∀ (s : Str) (r : Str),
    pString (escapeStr s ++ '"' :: r) = some (s, r) := by
  intro s
  induction s with
  | nil =>
    intro r
    show pString ([] ++ '"' :: r) = _
    rw [List.nil_append, pString.eq_def]
    simp
  | cons c t ih =>
    intro r
    show pString ((escChar c ++ escapeStr t) ++ '"' :: r) = _
    rw [List.append_assoc]
    by_cases b1 : c = '"'
    · subst b1
      rw [(by decide : escChar '"' = ['\\', '"'])]
      simp only [List.cons_append, List.nil_append]
      rw [pString.eq_def]
      simp [unescChar, ih]
    · by_cases b2 : c = '\\'
      · subst b2
        rw [(by decide : escChar '\\' = ['\\', '\\'])]
        simp only [List.cons_append, List.nil_append]
        rw [pString.eq_def]
        simp [unescChar, ih]
      · by_cases b3 : c = '\x08'
        · subst b3
          rw [(by decide : escChar '\x08' = ['\\', 'b'])]
          simp only [List.cons_append, List.nil_append]
          rw [pString.eq_def]
          simp [unescChar, ih]
        · by_cases b4 : c = '\t'
          · subst b4
            rw [(by decide : escChar '\t' = ['\\', 't'])]
            simp only [List.cons_append, List.nil_append]
            rw [pString.eq_def]
            simp [unescChar, ih]
          · by_cases b5 : c = '\n'
            · subst b5
              rw [(by decide : escChar '\n' = ['\\', 'n'])]
              simp only [List.cons_append, List.nil_append]
              rw [pString.eq_def]
              simp [unescChar, ih]
            · by_cases b6 : c = '\x0c'
              · subst b6
                rw [(by decide : escChar '\x0c' = ['\\', 'f'])]
                simp only [List.cons_append, List.nil_append]
                rw [pString.eq_def]
                simp [unescChar, ih]
              · by_cases b7 : c = '\r'
                · subst b7
                  rw [(by decide : escChar '\r' = ['\\', 'r'])]
                  simp only [List.cons_append, List.nil_append]
                  rw [pString.eq_def]
                  simp [unescChar, ih]
                · by_cases b8 : c.toNat < 32
                  · have hhi : isHex (hexChar (c.toNat / 16)) = true :=
                      isHex_hexChar _ (by omega)
                    have hlo : isHex (hexChar (c.toNat % 16)) = true :=
                      isHex_hexChar _ (by omega)
                    have vhi : hexVal (hexChar (c.toNat / 16)) = c.toNat / 16 :=
                      hexVal_hexChar _ (by omega)
                    have vlo : hexVal (hexChar (c.toNat % 16)) = c.toNat % 16 :=
                      hexVal_hexChar _ (by omega)
                    simp only [escChar, b1, b2, b3, b4, b5, b6, b7, b8, if_true, if_false,
                      List.cons_append, List.nil_append]
                    rw [pString.eq_def]
                    simp only [if_neg (by decide : ¬('\\' : Char) = '"'), if_pos rfl,
                      if_pos (rfl : ('u' : Char) = 'u'), hhi, hlo, vhi, vlo,
                      (by decide : isHex '0' = true), (by decide : hexVal '0' = 0),
                      Bool.and_self, Bool.and_true, Bool.true_and, if_true, ih]
                    have : ((0 * 16 + 0) * 16 + c.toNat / 16) * 16 + c.toNat % 16 = c.toNat := by
                      omega
                    rw [this, Char.ofNat_toNat]
                  · simp only [escChar, b1, b2, b3, b4, b5, b6, b7, b8, if_false,
                      List.cons_append, List.nil_append]
                    rw [pString.eq_def]
                    simp only [if_neg b1, if_neg b2, ih]

/-! ### Parse-render round-trip -/

theorem renderJ_head (v : Json) :
    ∃ c t, renderJ v = c :: t ∧ isWs c = false ∧ c ≠ ']' := by
  cases v with
  | null => exact ⟨'n', _, rfl, by decide, by decide⟩
  | bool b =>
    cases b
    · exact ⟨'f', _, rfl, by decide, by decide⟩
    · exact ⟨'t', _, rfl, by decide, by decide⟩
  | num n =>
    show ∃ c t, renderInt n = c :: t ∧ _
    unfold renderInt
    by_cases hn : n < 0
    · rw [if_pos hn]
      exact ⟨'-', _, rfl, by decide, by decide⟩
    · rw [if_neg hn]
      obtain ⟨d, t, hdt, hd⟩ := renderNat_head n.toNat
      exact ⟨d, t, hdt, isWs_eq_false_of_isDig hd, ne_of_isDig hd ']' (by decide)⟩
  | str s => exact ⟨'"', _, rfl, by decide, by decide⟩
  | arr xs =>
    cases xs
    · exact ⟨'[', _, rfl, by decide, by decide⟩
    · exact ⟨'[', _, rfl, by decide, by decide⟩
  | obj kvs =>
    cases kvs
    · exact ⟨'\x7b', _, rfl, by decide, by decide⟩
    · exact ⟨'\x7b', _, rfl, by decide, by decide⟩

theorem noDigHead_renderATail (tl : JsonArr) (r : Str) :
    noDigHead (renderATail tl ++ r) := by
  cases tl with
  | nil => exact (by decide : isDig ']' = false)
  | cons v tl => exact (by decide : isDig ',' = false)

theorem noDigHead_renderOTail (tl : JsonObj) (r : Str) :
    noDigHead (renderOTail tl ++ r) := by
  cases tl with
  | nil => exact (by decide : isDig '\x7d' = false)
  | cons k v tl => exact (by decide : isDig ',' = false)

theorem sizeJ_pos (v : Json) : 1 ≤ sizeJ v := by
  cases v <;> simp [sizeJ]

theorem sizeA_pos (xs : JsonArr) : 1 ≤ sizeA xs := by
  cases xs <;> simp [sizeA]

theorem sizeO_pos (kvs : JsonObj) : 1 ≤ sizeO kvs := by
  cases kvs <;> simp [sizeO]

theorem parse_render (fuel : Nat) :
    (∀ v r, sizeJ v ≤ fuel → noDigHead r → pVal fuel (renderJ v ++ r) = some (v, r)) ∧
    (∀ xs r, sizeA xs ≤ fuel → pArrTail fuel (renderATail xs ++ r) = some (xs, r)) ∧
    (∀ kvs r, sizeO kvs ≤ fuel →
      pObjTail fuel (renderOTail kvs ++ r) = some (kvs, r)) := by
  induction fuel with
  | zero =>
    refine ⟨fun v r hs _ => absurd hs ?_, fun xs r hs => absurd hs ?_,
      fun kvs r hs => absurd hs ?_⟩
    · have := sizeJ_pos v; omega
    · have := sizeA_pos xs; omega
    · have := sizeO_pos kvs; omega
  | succ fuel ih =>
    obtain ⟨ihV, ihA, ihO⟩ := ih
    refine ⟨?_, ?_, ?_⟩
    · intro v r hs hr
      cases v with
      | null =>
        show pVal (fuel + 1) (['n', 'u', 'l', 'l'] ++ r) = _
        simp [pVal, skipWs, isWs]
      | bool b =>
        cases b
        · show pVal (fuel + 1) (['f', 'a', 'l', 's', 'e'] ++ r) = _
          simp [pVal, skipWs, isWs]
        · show pVal (fuel + 1) (['t', 'r', 'u', 'e'] ++ r) = _
          simp [pVal, skipWs, isWs]
      | num n =>
        show pVal (fuel + 1) (renderInt n ++ r) = _
        unfold renderInt
        by_cases hn : n < 0
        · rw [if_pos hn]
          obtain ⟨d, t, hdt, hd⟩ := renderNat_head n.natAbs
          have hp : pDigits (digVal d) (t ++ r) = (n.natAbs, r) := by
            have h0 := pDigits_renderNat_stop n.natAbs r hr
            rw [hdt, List.cons_append] at h0
            simpa [pDigits, hd] using h0
          rw [List.cons_append, hdt, List.cons_append]
          simp [pVal, skipWs, isWs, hd, hp]
          have habs : ((n.natAbs : Int)) = -n := Int.ofNat_natAbs_of_nonpos (by omega)
          have habs2 : |n| = -n := abs_of_neg hn
          omega
        · rw [if_neg hn]
          obtain ⟨d, t, hdt, hd⟩ := renderNat_head n.toNat
          have hp : pDigits (digVal d) (t ++ r) = (n.toNat, r) := by
            have h0 := pDigits_renderNat_stop n.toNat r hr
            rw [hdt, List.cons_append] at h0
            simpa [pDigits, hd] using h0
          rw [hdt, List.cons_append]
          simp [pVal, skipWs, isWs_eq_false_of_isDig hd, hd, hp,
            ne_of_isDig hd 'n' (by decide), ne_of_isDig hd 't' (by decide),
            ne_of_isDig hd 'f' (by decide), ne_of_isDig hd '"' (by decide),
            ne_of_isDig hd '[' (by decide), ne_of_isDig hd '\x7b' (by decide),
            ne_of_isDig hd '-' (by decide)]
          have ht : ((n.toNat : Int)) = n := Int.toNat_of_nonneg (by omega)
          omega
      | str s =>
        have hsh : ('"' :: escapeStr s ++ ['"']) ++ r = '"' :: (escapeStr s ++ '"' :: r) := by
          simp
        show pVal (fuel + 1) (('"' :: escapeStr s ++ ['"']) ++ r) = _
        rw [hsh]
        simp [pVal, skipWs, isWs, pString_escape]
      | arr xs =>
        cases xs with
        | nil =>
          show pVal (fuel + 1) (['[', ']'] ++ r) = _
          simp [pVal, skipWs, isWs]
        | cons v tl =>
          obtain ⟨c0, t0, hct, hnws, hnb⟩ := renderJ_head v
          have hsv : sizeJ v ≤ fuel := by
            have h1 := le_max_left (sizeJ v) (sizeA tl)
            simp only [sizeJ, sizeA] at hs
            omega
          have hsa : sizeA tl ≤ fuel := by
            have h1 := le_max_right (sizeJ v) (sizeA tl)
            simp only [sizeJ, sizeA] at hs
            omega
          have hIH := ihV v (renderATail tl ++ r) hsv (noDigHead_renderATail tl r)
          have hA := ihA tl r hsa
          rw [hct, List.cons_append] at hIH
          show pVal (fuel + 1) (('[' :: renderJ v ++ renderATail tl) ++ r) = _
          rw [hct]
          simp only [List.cons_append, List.append_assoc]
          simp [pVal, skipWs, (by decide : isWs '[' = false), hnws, hnb, hIH, hA]
      | obj kvs =>
        cases kvs with
        | nil =>
          show pVal (fuel + 1) (['\x7b', '\x7d'] ++ r) = _
          simp [pVal, skipWs, isWs]
        | cons k v tl =>
          have hsv : sizeJ v ≤ fuel := by
            have h1 := le_max_left (sizeJ v) (sizeO tl)
            simp only [sizeJ, sizeO] at hs
            omega
          have hso : sizeO tl ≤ fuel := by
            have h1 := le_max_right (sizeJ v) (sizeO tl)
            simp only [sizeJ, sizeO] at hs
            omega
          have hIH := ihV v (renderOTail tl ++ r) hsv (noDigHead_renderOTail tl r)
          have hO := ihO tl r hso
          have hps := pString_escape k (':' :: (renderJ v ++ (renderOTail tl ++ r)))
          show pVal (fuel + 1)
            (('\x7b' :: '"' :: escapeStr k ++ '"' :: ':' :: renderJ v ++ renderOTail tl) ++ r)
            = _
          simp only [List.cons_append, List.append_assoc]
          simp [pVal, skipWs, isWs, hIH, hO, hps]
    · intro xs r hs
      cases xs with
      | nil =>
        show pArrTail (fuel + 1) ([']'] ++ r) = _
        simp [pArrTail, skipWs, isWs]
      | cons v tl =>
        have hsv : sizeJ v ≤ fuel := by
          have h1 := le_max_left (sizeJ v) (sizeA tl)
          simp only [sizeA] at hs
          omega
        have hsa : sizeA tl ≤ fuel := by
          have h1 := le_max_right (sizeJ v) (sizeA tl)
          simp only [sizeA] at hs
          omega
        have hIH := ihV v (renderATail tl ++ r) hsv (noDigHead_renderATail tl r)
        have hA := ihA tl r hsa
        show pArrTail (fuel + 1) ((',' :: renderJ v ++ renderATail tl) ++ r) = _
        simp only [List.cons_append, List.append_assoc]
        simp [pArrTail, skipWs, isWs, hIH, hA]
    · intro kvs r hs
      cases kvs with
      | nil =>
        show pObjTail (fuel + 1) (['\x7d'] ++ r) = _
        simp [pObjTail, skipWs, isWs]
      | cons k v tl =>
        have hsv : sizeJ v ≤ fuel := by
          have h1 := le_max_left (sizeJ v) (sizeO tl)
          simp only [sizeO] at hs
          omega
        have hso : sizeO tl ≤ fuel := by
          have h1 := le_max_right (sizeJ v) (sizeO tl)
          simp only [sizeO] at hs
          omega
        have hIH := ihV v (renderOTail tl ++ r) hsv (noDigHead_renderOTail tl r)
        have hO := ihO tl r hso
        have hps := pString_escape k (':' :: (renderJ v ++ (renderOTail tl ++ r)))
        show pObjTail (fuel + 1)
          ((',' :: '"' :: escapeStr k ++ '"' :: ':' :: renderJ v ++ renderOTail tl) ++ r) = _
        simp only [List.cons_append, List.append_assoc]
        simp [pObjTail, skipWs, isWs, hIH, hO, hps]

theorem renderJ_len_pos (v : Json) : 1 ≤ (renderJ v).length := by
  obtain ⟨c, t, hct, -, -⟩ := renderJ_head v
  rw [hct]
  simp

theorem renderATail_len_pos (xs : JsonArr) : 1 ≤ (renderATail xs).length := by
  cases xs <;> simp [renderATail]

theorem renderOTail_len_pos (kvs : JsonObj) : 1 ≤ (renderOTail kvs).length := by
  cases kvs <;> simp [renderOTail]

mutual

theorem sizeJ_le_len : ∀ v : Json, sizeJ v ≤ (renderJ v).length
  | .null => by simp [sizeJ, renderJ, kwNull]
  | .bool true => by simp [sizeJ, renderJ, kwTrue]
  | .bool false => by simp [sizeJ, renderJ, kwFalse]
  | .num n => by simpa [sizeJ] using renderJ_len_pos (.num n)
  | .str s => by simp [sizeJ, renderJ]
  | .arr .nil => by simp [sizeJ, sizeA, renderJ]
  | .arr (.cons v tl) => by
      have h1 := sizeJ_le_len v
      have h2 := sizeA_le_len tl
      have h3 := renderJ_len_pos v
      have h4 := renderATail_len_pos tl
      simp only [sizeJ, sizeA, renderJ, List.length_cons, List.length_append]
      omega
  | .obj .nil => by simp [sizeJ, sizeO, renderJ]
  | .obj (.cons k v tl) => by
      have h1 := sizeJ_le_len v
      have h2 := sizeO_le_len tl
      have h3 := renderJ_len_pos v
      have h4 := renderOTail_len_pos tl
      simp only [sizeJ, sizeO, renderJ, List.length_cons, List.length_append]
      omega

theorem sizeA_le_len : ∀ xs : JsonArr, sizeA xs ≤ (renderATail xs).length
  | .nil => by simp [sizeA, renderATail]
  | .cons v tl => by
      have h1 := sizeJ_le_len v
      have h2 := sizeA_le_len tl
      simp only [sizeA, renderATail, List.length_cons, List.length_append]
      omega

theorem sizeO_le_len : ∀ kvs : JsonObj, sizeO kvs ≤ (renderOTail kvs).length
  | .nil => by simp [sizeO, renderOTail]
  | .cons k v tl => by
      have h1 := sizeJ_le_len v
      have h2 := sizeO_le_len tl
      simp only [sizeO, renderOTail, List.length_cons, List.length_append]
      omega

end

theorem jsonParse_render (v : Json) : jsonParse (renderJ v) = some v := by
  unfold jsonParse
  have h := (parse_render ((renderJ v).length + 1)).1 v []
    (by have := sizeJ_le_len v; omega) trivial
  rw [List.append_nil] at h
  rw [h]
  rfl

/-- Round-trip of the serializer on every JSON value. -/
theorem decode_encode_val (v : Json) : decode (encode v) = .ok v := by
  unfold decode encode
  rw [b64decode_encode _ (utf8Encode_bytes_lt _), utf8Decode_encode]
  simp [jsonParse_render]

/-! ### Middleware-level facts -/

/-- The decode of the source can only throw the `SyntaxError` of
`JSON.parse`; no other exception arises in it. -/
theorem decode_ne_fatal (s : Str) : decode s ≠ .error .fatal := by
  unfold decode
  cases utf8Decode (b64decode s) with
  | none => simp
  | some body =>
    simp only []
    cases jsonParse body <;> simp

theorem sessionOfDecoded_decode_ok (x : Str) :
    ∃ s, sessionOfDecoded (decode x) = .ok s := by
  cases h : decode x with
  | ok v => exact ⟨Session.ofVal v, by simp [sessionOfDecoded]⟩
  | error e =>
    cases e with
    | malformed => exact ⟨Session.freshNew, by simp [sessionOfDecoded]⟩
    | fatal => exact absurd h (decode_ne_fatal x)

theorem loadPhase_inv (cookieSid : Option Str) (storeGet : Except Unit (Option Str))
    (freshSid : Str) (lr : LoadResult)
    (hl : loadPhase cookieSid storeGet freshSid = .ok lr) :
    (truthyS lr.json = false ∧ lr.sid = freshSid ∧ lr.sess = Session.freshNew ∧
      lr.json = loadJson cookieSid storeGet) ∨
    (truthyS lr.json = true ∧ lr.sid = cookieSid.getD [] ∧
      lr.json = loadJson cookieSid storeGet ∧
      sessionOfDecoded (decode (lr.json.getD [])) = .ok lr.sess) := by
  unfold loadPhase at hl
  by_cases ht : truthyS (loadJson cookieSid storeGet)
  · rw [if_pos ht] at hl
    cases hs : sessionOfDecoded (decode ((loadJson cookieSid storeGet).getD [])) with
    | ok sess =>
      rw [hs] at hl
      simp only [Except.ok.injEq] at hl
      subst hl
      right
      exact ⟨ht, rfl, rfl, hs⟩
    | error e =>
      rw [hs] at hl
      exact absurd hl (by simp)
  · rw [if_neg ht] at hl
    simp only [Except.ok.injEq] at hl
    subst hl
    left
    exact ⟨by simpa using ht, rfl, rfl, rfl⟩

theorem loadPhase_isOk (cookieSid : Option Str) (storeGet : Except Unit (Option Str))
    (freshSid : Str) : ∃ lr, loadPhase cookieSid storeGet freshSid = .ok lr := by
  unfold loadPhase
  by_cases ht : truthyS (loadJson cookieSid storeGet)
  · rw [if_pos ht]
    obtain ⟨s, hs⟩ := sessionOfDecoded_decode_ok ((loadJson cookieSid storeGet).getD [])
    rw [hs]
    exact ⟨_, rfl⟩
  · rw [if_neg ht]
    exact ⟨_, rfl⟩

theorem changed_spec (s : Session) (prev : Option Str) :
    (s.changed prev).1 = (!truthyS prev || decide (s.encodeSelf ≠ prev.getD [])) ∧
    (s.changed prev).2 =
      (if truthyS prev then { s with jsonCache := some s.encodeSelf } else s) := by
  unfold Session.changed truthyS
  by_cases h : (prev.getD []).isEmpty
  · simp [h]
  · simp [h]

theorem finalize_unset (key : Str) (lr : LoadResult) :
    finalize key lr .unset = [.cookieSet key [], .storeDel lr.sid] := rfl

theorem finalize_active (key : Str) (lr : LoadResult) (s : Session) :
    finalize key lr (.active s) =
      if !truthyS lr.json && s.length == 0 then []
      else
        if (s.changed lr.json).1 then
          [.cookieSet key lr.sid, .storeSet lr.sid ((s.changed lr.json).2.save key lr.sid).1]
        else [] := by
  unfold finalize
  by_cases h1 : !truthyS lr.json && s.length == 0
  · simp [h1]
  · simp only [h1, if_false]
    by_cases h2 : (s.changed lr.json).1
    · simp [h2, Session.save]
    · simp [h2]

/-! ### Claim theorems -/

/-- C1: whatever error the downstream handler throws, the orchestrator
captures it, runs the identical finalize sequence it would run for the
same session effect without an error (so a save that would happen still
happens), and re-raises the captured error only then: the run with a
throwing handler equals the run with the same non-throwing handler with
the error attached after the effects. -/
theorem c1_error_deferred {ε : Type} (key : Str) (cookieSid : Option Str)
    (storeGet : Except Unit (Option Str)) (freshSid : Str)
    (f : SessVar → SessVar) (e : ε) :
    middleware key cookieSid storeGet freshSid (fun sv => (f sv, some e)) =
      (middleware key cookieSid storeGet freshSid
        (fun sv => (f sv, (none : Option ε)))).map (fun p => (p.1, some e)) := by
  unfold middleware
  cases loadPhase cookieSid storeGet freshSid <;> rfl

/-- C2 counterexample: the cookie carries identifier "abc" but the store
has no record for it; the middleware then generates and uses a fresh
identifier, so the store write of a populated session is keyed by "fresh",
not by the identifier read from the cookie, refuting the claim that an
identifier read from the cookie stays active for the request. -/
theorem c2_counterexample :
    middleware "k".toList (some "abc".toList) (.ok none) "fresh".toList
        (fun _ => (.active ⟨[("user".toList, Json.num 1)], false, none⟩,
          (none : Option Unit))) =
      .ok ([.cookieSet "k".toList "fresh".toList,
            .storeSet "fresh".toList
              (encode (Json.obj (.cons "user".toList (.num 1) .nil)))], none) ∧
    "fresh".toList ≠ "abc".toList := by
  exact ⟨rfl, by decide⟩

/-- C2 amended: the identifier is resolved at the end of the load attempt —
it is the cookie identifier exactly when a truthy record string was loaded
from the store, and a freshly generated one otherwise (even when the
cookie carried an identifier); from then on it never changes, and every
store operation and cookie write of the request uses it (a cookie write
carries either that identifier or the empty clearing value). -/
theorem c2_single_identifier {ε : Type} (key : Str) (cookieSid : Option Str)
    (storeGet : Except Unit (Option Str)) (freshSid : Str)
    (handler : SessVar → SessVar × Option ε) (lr : LoadResult) (effs : List Effect)
    (herr : Option ε)
    (hl : loadPhase cookieSid storeGet freshSid = .ok lr)
    (hm : middleware key cookieSid storeGet freshSid handler = .ok (effs, herr)) :
    (truthyS lr.json = false → lr.sid = freshSid) ∧
    (truthyS lr.json = true → lr.sid = cookieSid.getD []) ∧
    effs.all (effUses key lr.sid) = true := by
  refine ⟨?_, ?_, ?_⟩
  · intro h
    rcases loadPhase_inv _ _ _ _ hl with ⟨-, h2, -, -⟩ | ⟨h1, -, -, -⟩
    · exact h2
    · simp [h] at h1
  · intro h
    rcases loadPhase_inv _ _ _ _ hl with ⟨h1, -, -, -⟩ | ⟨-, h2, -, -⟩
    · simp [h] at h1
    · exact h2
  · unfold middleware at hm
    rw [hl] at hm
    simp only [Except.ok.injEq, Prod.mk.injEq] at hm
    obtain ⟨heffs, -⟩ := hm
    rw [← heffs]
    cases (handler (.active lr.sess)).1 with
    | undef => simp [finalize]
    | unset => simp [finalize, effUses]
    | active s =>
      rw [finalize_active]
      by_cases h1 : !truthyS lr.json && s.length == 0
      · simp [h1]
      · simp only [h1, if_false]
        by_cases h2 : (s.changed lr.json).1
        · simp [h2, effUses]
        · simp [h2]

/-- C3 counterexample: the store record "e30" decodes to the empty object,
whose canonical re-encoding is "e30="; although the handler neither reads
nor writes the session, finalize issues a cookie write and a store save,
refuting the claim that an untouched session always finalizes as a no-op
regardless of the loaded record's contents. -/
theorem c3_counterexample :
    middleware "k".toList (some "abc".toList) (.ok (some "e30".toList)) "fresh".toList
        (fun sv => (sv, (none : Option Unit))) =
      .ok ([.cookieSet "k".toList "abc".toList,
            .storeSet "abc".toList "e30=".toList], none) := by
  rfl

/-- C3 amended: when the handler neither reads nor writes the session
accessor, finalize performs no store delete, and performs no effect at all
unless a truthy record string was loaded whose canonical re-encoding
differs from it; in that one case it performs exactly a cookie refresh
followed by a store save of the re-encoding. -/
theorem c3_untouched_noop (key : Str) (cookieSid : Option Str)
    (storeGet : Except Unit (Option Str)) (freshSid : Str) (lr : LoadResult)
    (hl : loadPhase cookieSid storeGet freshSid = .ok lr) :
    middleware key cookieSid storeGet freshSid (fun sv => (sv, (none : Option Unit))) =
      .ok ((if truthyS lr.json && decide (lr.sess.encodeSelf ≠ lr.json.getD []) then
              [.cookieSet key lr.sid, .storeSet lr.sid lr.sess.encodeSelf]
            else []), none) := by
  unfold middleware
  rw [hl]
  simp only [Except.ok.injEq, Prod.mk.injEq, and_true]
  rw [finalize_active]
  obtain ⟨hc1, hc2⟩ := changed_spec lr.sess lr.json
  rcases loadPhase_inv _ _ _ _ hl with ⟨hjf, -, hsess, -⟩ | ⟨hjt, -, -, -⟩
  · rw [hjf, hsess]
    simp [Session.length, Session.toJSON, Session.freshNew]
  · rw [hjt]
    simp only [Bool.not_true, Bool.false_and, if_false, Bool.true_and]
    rw [hc1, hjt]
    simp only [Bool.not_true, Bool.false_or]
    by_cases he : lr.sess.encodeSelf = lr.json.getD []
    · simp [he]
    · rw [decide_eq_true he]
      simp only [if_true]
      rw [hc2, hjt]
      simp [Session.save, he]

/-- C4 counterexample: the record string "!!!" is present but malformed,
so the load phase falls back to a fresh session (state New) with zero
populated fields — yet finalize saves the canonical empty encoding "e30="
to the store and rewrites the cookie, refuting the claim that an empty New
session (including the malformed-record fallback) finalizes as a no-op. -/
theorem c4_counterexample :
    decode "!!!".toList = .error .malformed ∧
    loadPhase (some "abc".toList) (.ok (some "!!!".toList)) "fresh".toList =
      .ok ⟨"abc".toList, some "!!!".toList, Session.freshNew⟩ ∧
    Session.freshNew.length = 0 ∧
    middleware "k".toList (some "abc".toList) (.ok (some "!!!".toList)) "fresh".toList
        (fun sv => (sv, (none : Option Unit))) =
      .ok ([.cookieSet "k".toList "abc".toList,
            .storeSet "abc".toList "e30=".toList], none) := by
  exact ⟨rfl, rfl, rfl, rfl⟩

/-- C4 amended: when no truthy record string was loaded (cookie absent,
store miss, store failure or empty record) and the handler leaves the
session an entity with zero populated fields, finalize performs no effect.
(The malformed-record fallback is excluded: there a record string exists
and finalize saves the empty encoding, see the counterexample.) -/
theorem c4_empty_new_noop {ε : Type} (key : Str) (cookieSid : Option Str)
    (storeGet : Except Unit (Option Str)) (freshSid : Str)
    (handler : SessVar → SessVar × Option ε) (lr : LoadResult) (s : Session)
    (herr : Option ε)
    (hl : loadPhase cookieSid storeGet freshSid = .ok lr)
    (hj : truthyS lr.json = false)
    (hh : handler (.active lr.sess) = (.active s, herr))
    (hlen : s.length = 0) :
    middleware key cookieSid storeGet freshSid handler = .ok ([], herr) := by
  unfold middleware
  rw [hl]
  simp only [hh]
  rw [finalize_active, hj, hlen]
  simp

/-- C5: a malformed record string (present but not base64-then-JSON) makes
the load phase construct a fresh empty session under the cookie's
identifier with no error — the request then proceeds normally, its outcome
determined by the handler alone; and a decode failure that is not the
`SyntaxError` of `JSON.parse` is rethrown by the catch as fatal. -/
theorem c5_malformed_fallback (key sid rec freshSid : Str)
    (hsid : sid ≠ []) (hrec : rec ≠ [])
    (hdec : decode rec = .error .malformed) :
    loadPhase (some sid) (.ok (some rec)) freshSid =
      .ok ⟨sid, some rec, Session.freshNew⟩ ∧
    (∀ (ε : Type) (handler : SessVar → SessVar × Option ε),
      middleware key (some sid) (.ok (some rec)) freshSid handler =
        .ok (finalize key ⟨sid, some rec, Session.freshNew⟩
               (handler (.active Session.freshNew)).1,
             (handler (.active Session.freshNew)).2)) ∧
    sessionOfDecoded (.error .fatal) = .error .fatal := by
  have htr : truthyS (some sid) = true := by
    cases sid with
    | nil => exact absurd rfl hsid
    | cons c t => rfl
  have htr2 : truthyS (some rec) = true := by
    cases rec with
    | nil => exact absurd rfl hrec
    | cons c t => rfl
  have hload : loadJson (some sid) (.ok (some rec)) = some rec := by
    unfold loadJson
    rw [if_pos htr]
  have h1 : loadPhase (some sid) (.ok (some rec)) freshSid =
      .ok ⟨sid, some rec, Session.freshNew⟩ := by
    unfold loadPhase
    rw [hload, if_pos htr2]
    simp [hdec, sessionOfDecoded]
  exact ⟨h1, fun ε handler => by unfold middleware; rw [h1], rfl⟩

/-- C6: a failing store load is treated exactly like an absent record —
the run equals the run of a request carrying no cookie at all (fresh
identifier, fresh session), and the load phase itself completes without
error. -/
theorem c6_load_failure_absent {ε : Type} (key sid freshSid : Str)
    (storeGet2 : Except Unit (Option Str))
    (handler : SessVar → SessVar × Option ε) (hsid : sid ≠ []) :
    middleware key (some sid) (.error ()) freshSid handler =
      middleware key none storeGet2 freshSid handler ∧
    loadPhase (some sid) (.error ()) freshSid =
      .ok ⟨freshSid, none, Session.freshNew⟩ := by
  have htr : truthyS (some sid) = true := by
    cases sid with
    | nil => exact absurd rfl hsid
    | cons c t => rfl
  have h1 : loadPhase (some sid) (.error ()) freshSid =
      .ok ⟨freshSid, none, Session.freshNew⟩ := by
    unfold loadPhase loadJson
    rw [if_pos htr]
    rfl
  have h2 : loadPhase none storeGet2 freshSid =
      .ok ⟨freshSid, none, Session.freshNew⟩ := by
    unfold loadPhase loadJson
    rfl
  exact ⟨by unfold middleware; rw [h1, h2], h1⟩

/-- C7: a handler that sets the session to null (the unset sentinel, as
the session setter produces for null) makes finalize clear the cookie and
then issue exactly one store delete keyed by the request's identifier —
these two effects and nothing else, whatever the session's prior content
was. -/
theorem c7_unset_deletes {ε : Type} (key : Str) (cookieSid : Option Str)
    (storeGet : Except Unit (Option Str)) (freshSid : Str)
    (handler : SessVar → SessVar × Option ε) (lr : LoadResult) (herr : Option ε)
    (hl : loadPhase cookieSid storeGet freshSid = .ok lr)
    (hh : handler (.active lr.sess) = (.unset, herr)) :
    setSession .toNull = .ok SessVar.unset ∧
    middleware key cookieSid storeGet freshSid handler =
      .ok ([.cookieSet key [], .storeDel lr.sid], herr) := by
  refine ⟨rfl, ?_⟩
  unfold middleware
  rw [hl]
  simp [hh, finalize]

/-- C8: the serializer round-trips — decoding the encoding of any
JSON-representable field mapping yields the mapping back. -/
theorem c8_roundtrip (m : JsonObj) :
    decode (encode (Json.obj m)) = .ok (Json.obj m) :=
  decode_encode_val (Json.obj m)

/-- C9: the serialized form of every session entity — whatever its state
and fields, including handler-set fields named "isNew" or beginning with
an underscore — contains no transient attribute: every key it carries is
neither "isNew" nor underscore-prefixed.  (`encode(this)` serializes
exactly `toJSON()` of the entity, so this covers the stored record too.) -/
theorem c9_exclusion (s : Session) :
    s.toJSON.all
      (fun kv => !(kv.1 == "isNew".toList) && !(kv.1.head? == some '_')) = true := by
  unfold Session.toJSON
  rw [List.all_eq_true]
  intro kv hkv
  exact (List.mem_filter.mp hkv).2

/-- C10 counterexample: a call to `changed` with an absent original record
returns true without computing any encoding and leaves the cache empty, so
the claim that every call caches the freshly computed encoding fails. -/
theorem c10_counterexample :
    (Session.freshNew.changed none).1 = true ∧
    (Session.freshNew.changed none).2.jsonCache = none ∧
    (Session.freshNew.changed none).2.jsonCache ≠
      some Session.freshNew.encodeSelf := by
  exact ⟨rfl, rfl, by simp [Session.changed, Session.freshNew]⟩

/-- C10 amended: `changed(prev)` returns true exactly when `prev` is
absent/empty or the freshly computed canonical encoding differs from it;
it caches that encoding as a side effect only when `prev` is present and
non-empty — when `prev` is absent it returns true without computing or
caching anything, and a subsequent `save()` then computes the encoding
itself (returning the same canonical string). -/
theorem c10_changed_caching (s : Session) (prev : Option Str) (key sid : Str) :
    (s.changed prev).1 = (!truthyS prev || decide (s.encodeSelf ≠ prev.getD [])) ∧
    (s.changed prev).2 =
      (if truthyS prev then { s with jsonCache := some s.encodeSelf } else s) ∧
    ((s.changed prev).2.save key sid).1 =
      (if truthyS prev then s.encodeSelf else s.jsonCache.getD s.encodeSelf) := by
  obtain ⟨h1, h2⟩ := changed_spec s prev
  refine ⟨h1, h2, ?_⟩
  rw [h2]
  by_cases ht : truthyS prev
  · simp [ht, Session.save]
  · simp [ht, Session.save]

/-! ### Witnesses -/

/-- Witness for C2 amended at a concrete request: cookie "abc", store
miss, fresh identifier "fresh", handler populating one field. -/
theorem c2_single_identifier_witness :
    loadPhase (some "abc".toList) (.ok none) "fresh".toList =
      .ok ⟨"fresh".toList, none, Session.freshNew⟩ ∧
    ((truthyS (none : Option Str) = false → "fresh".toList = "fresh".toList) ∧
     (truthyS (none : Option Str) = true → "fresh".toList = "abc".toList) ∧
     ([Effect.cookieSet "k".toList "fresh".toList,
       Effect.storeSet "fresh".toList
         (encode (Json.obj (.cons "user".toList (.num 1) .nil)))].all
        (effUses "k".toList "fresh".toList) = true)) :=
  ⟨rfl, c2_single_identifier "k".toList (some "abc".toList) (.ok none) "fresh".toList
    (fun _ => (.active ⟨[("user".toList, Json.num 1)], false, none⟩, (none : Option Unit)))
    ⟨"fresh".toList, none, Session.freshNew⟩ _ none rfl rfl⟩

/-- Witness for C3 amended at a concrete request: loaded record "e30"
whose re-encoding is "e30=", untouched handler. -/
theorem c3_untouched_noop_witness :
    loadPhase (some "abc".toList) (.ok (some "e30".toList)) "fresh".toList =
      .ok ⟨"abc".toList, some "e30".toList, ⟨[], false, none⟩⟩ ∧
    middleware "k".toList (some "abc".toList) (.ok (some "e30".toList)) "fresh".toList
        (fun sv => (sv, (none : Option Unit))) =
      .ok ((if truthyS (some "e30".toList) &&
              decide ((⟨[], false, none⟩ : Session).encodeSelf ≠ "e30".toList) then
              [.cookieSet "k".toList "abc".toList,
               .storeSet "abc".toList (⟨[], false, none⟩ : Session).encodeSelf]
            else []), none) :=
  ⟨rfl, c3_untouched_noop "k".toList (some "abc".toList) (.ok (some "e30".toList))
    "fresh".toList ⟨"abc".toList, some "e30".toList, ⟨[], false, none⟩⟩ rfl⟩

/-- Witness for C4 amended at a concrete request: no cookie, untouched
handler, empty fresh session. -/
theorem c4_empty_new_noop_witness :
    loadPhase none (.ok none) "fresh".toList =
      .ok ⟨"fresh".toList, none, Session.freshNew⟩ ∧
    truthyS (none : Option Str) = false ∧
    Session.freshNew.length = 0 ∧
    middleware "k".toList none (.ok none) "fresh".toList
        (fun sv => (sv, (none : Option Unit))) = .ok ([], none) :=
  ⟨rfl, rfl, rfl,
   c4_empty_new_noop "k".toList none (.ok none) "fresh".toList
     (fun sv => (sv, (none : Option Unit)))
     ⟨"fresh".toList, none, Session.freshNew⟩ Session.freshNew none rfl rfl rfl rfl⟩

/-- Witness for C5 at a concrete request: sid "abc", record "!!!" (present
but malformed). -/
theorem c5_malformed_fallback_witness :
    "abc".toList ≠ ([] : Str) ∧ "!!!".toList ≠ ([] : Str) ∧
    decode "!!!".toList = .error .malformed ∧
    loadPhase (some "abc".toList) (.ok (some "!!!".toList)) "fresh".toList =
      .ok ⟨"abc".toList, some "!!!".toList, Session.freshNew⟩ :=
  ⟨by decide, by decide, rfl,
   (c5_malformed_fallback "k".toList "abc".toList "!!!".toList "fresh".toList
     (by decide) (by decide) rfl).1⟩

/-- Witness for C6 at a concrete request: sid "abc", failing store load. -/
theorem c6_load_failure_absent_witness :
    "abc".toList ≠ ([] : Str) ∧
    (middleware "k".toList (some "abc".toList) (.error ()) "fresh".toList
        (fun sv => (sv, (none : Option Unit))) =
      middleware "k".toList none (.ok none) "fresh".toList
        (fun sv => (sv, (none : Option Unit))) ∧
     loadPhase (some "abc".toList) (.error ()) "fresh".toList =
      .ok ⟨"fresh".toList, none, Session.freshNew⟩) :=
  ⟨by decide,
   c6_load_failure_absent "k".toList "abc".toList "fresh".toList (.ok none)
     (fun sv => (sv, (none : Option Unit))) (by decide)⟩

/-- Witness for C7 at a concrete request: loaded record for the object
with one field, handler performing the null assignment. -/
theorem c7_unset_deletes_witness :
    loadPhase (some "abc".toList)
        (.ok (some (encode (Json.obj (.cons "user".toList (.bool true) .nil)))))
        "fresh".toList =
      .ok ⟨"abc".toList, some (encode (Json.obj (.cons "user".toList (.bool true) .nil))),
           ⟨[("user".toList, Json.bool true)], false, none⟩⟩ ∧
    (setSession .toNull = .ok SessVar.unset ∧
     middleware "k".toList (some "abc".toList)
        (.ok (some (encode (Json.obj (.cons "user".toList (.bool true) .nil)))))
        "fresh".toList (fun _ => (.unset, (none : Option Unit))) =
      .ok ([.cookieSet "k".toList [], .storeDel "abc".toList], none)) :=
  ⟨by rfl,
   c7_unset_deletes "k".toList (some "abc".toList)
     (.ok (some (encode (Json.obj (.cons "user".toList (.bool true) .nil)))))
     "fresh".toList (fun _ => (.unset, (none : Option Unit)))
     ⟨"abc".toList, some (encode (Json.obj (.cons "user".toList (.bool true) .nil))),
      ⟨[("user".toList, Json.bool true)], false, none⟩⟩ none (by rfl) rfl⟩

end KoaSession
